import Mathlib

/-!
Shallow embedding of the Stop-and-Reverse trade bot core
(`src/position_tracker.py`, `src/calc_engine.py`, `src/account_manager.py`,
`src/exchanges/bybit.py`, `src/main.py`).  Monetary quantities, prices and
contract amounts are modelled as exact rationals; Python floats become `ℚ`.
-/

namespace SAR

/-- Side of a fill as reported by the exchange (`fill['side']`). -/
inductive OrderSide where
  | buy
  | sell
deriving DecidableEq, Repr

/-- Direction of a net position (`'long'` / `'short'` in the Python source). -/
inductive Side where
  | long
  | short
deriving DecidableEq, Repr

/-- An exchange execution record, the input of the Reconstructor
(`position_tracker.py` reads `amount`, `price`, `side`, `fee['cost']`,
`timestamp` from each fill dictionary). -/
structure Fill where
  side : OrderSide
  amount : ℚ
  price : ℚ
  fee : ℚ
  timestamp : ℤ
deriving DecidableEq, Repr

/-- The floating point tolerance `0.001` used throughout `position_tracker.py`. -/
def eps : ℚ := 1 / 1000

/-- Signed contract quantity of a fill: buys add, sells subtract
(the `running_position` update in `position_tracker.py`). -/
def signedQty (f : Fill) : ℚ :=
  match f.side with
  | .buy => f.amount
  | .sell => -f.amount

/-- Auxiliary recursion of `PositionTracker._get_current_cycle_fills`: walking
the fills with index `i` and the running signed position, emit every cycle
boundary recorded by the loop body (`n` is the total number of fills, needed
for the `i + 1 < len(fills)` guard). -/
def boundariesFrom (n : ℕ) : ℕ → ℚ → List Fill → List ℕ
  | _, _, [] => []
  | i, running, f :: rest =>
      let prev := running
      let run2 := running + signedQty f
      let here : List ℕ :=
        if eps < |prev| then
          if |run2| < eps then
            (if i + 1 < n then [i + 1] else [])
          else if (0 < prev ∧ run2 < 0) ∨ (prev < 0 ∧ 0 < run2) then [i]
          else []
        else []
      here ++ boundariesFrom n (i + 1) run2 rest

/-- The `cycle_boundaries` list built by `_get_current_cycle_fills`
(it always starts with index `0`). -/
def cycle_boundaries (fills : List Fill) : List ℕ :=
  0 :: boundariesFrom fills.length 0 0 fills

/-- `PositionTracker._get_current_cycle_fills`: the fills from the last
recorded cycle boundary to the end (`fills[last_boundary:]`). -/
def get_current_cycle_fills (fills : List Fill) : List Fill :=
  fills.drop ((cycle_boundaries fills).getLastD 0)

/-- The side shown by a running signed quantity, `None` when within the
tolerance band (`current_side` in `_count_flips`). -/
def sideOf (q : ℚ) : Option Side :=
  if eps < |q| then some (if 0 < q then .long else .short) else none

/-- Loop body of `PositionTracker._count_flips`: carries the running signed
position and the last clearly-directional side seen (`previous_side`). -/
def flipsAux : ℚ → Option Side → List Fill → ℕ
  | _, _, [] => 0
  | running, prevSide, f :: rest =>
      let run2 := running + signedQty f
      let cur := sideOf run2
      let inc : ℕ :=
        match prevSide, cur with
        | some p, some c => if p ≠ c then 1 else 0
        | _, _ => 0
      let prev2 :=
        match cur with
        | some c => some c
        | none => prevSide
      inc + flipsAux run2 prev2 rest

/-- `PositionTracker._count_flips`: number of direction changes between
consecutive clearly-directional observations of the running position
(lists shorter than two fills report zero immediately). -/
def count_flips (fills : List Fill) : ℕ :=
  if fills.length < 2 then 0 else flipsAux 0 none fills

/-- A FIFO queue entry `(qty, price, fee)` of `_calculate_realized_pnl`. -/
abbrev QEntry : Type := ℚ × ℚ × ℚ

/-- The buy queue built by `_calculate_realized_pnl` (buys in fill order). -/
def buyQueue (fills : List Fill) : List QEntry :=
  (fills.filter (fun f => f.side = OrderSide.buy)).map
    (fun f => (f.amount, f.price, f.fee))

/-- The sell queue built by `_calculate_realized_pnl` (sells in fill order). -/
def sellQueue (fills : List Fill) : List QEntry :=
  (fills.filter (fun f => f.side = OrderSide.sell)).map
    (fun f => (f.amount, f.price, f.fee))

/-- The `while buy_queue and sell_queue` matching loop of
`PositionTracker._calculate_realized_pnl`.  Each pass matches
`min(buy_qty, sell_qty)`, adds the pro-rated P&L and drops every queue head
whose remaining quantity fell below `eps`.  When the buy head is not dropped
(`¬ buy_qty - matched < eps`) the matched quantity was the sell head, whose
remainder is `0 < eps`, so the sell head is dropped - exactly the
`if ... < 0.001: pop` pair of the source. -/
def fifoMatch (b s : List QEntry) : ℚ :=
  match b, s with
  | (bq, bp, bf) :: bs, (sq, sp, sf) :: ss =>
      let m := min bq sq
      let pnl := m * (sp - bp) - (bf + sf) * m / (bq + sq)
      if bq - m < eps then
        if sq - m < eps then pnl + fifoMatch bs ss
        else pnl + fifoMatch bs ((sq - m, sp, sf) :: ss)
      else pnl + fifoMatch ((bq - m, bp, bf) :: bs) ss
  | _, _ => 0
termination_by b.length + s.length
decreasing_by
  all_goals simp only [List.length_cons]
  all_goals omega

/-- `PositionTracker._calculate_realized_pnl`: FIFO-matched realized P&L of a
fill slice. -/
def calculate_realized_pnl (fills : List Fill) : ℚ :=
  fifoMatch (buyQueue fills) (sellQueue fills)

/-- The state dictionary returned by
`PositionTracker.analyze_position_state`. -/
structure PositionState where
  in_position : Bool
  flip_count : ℕ
  side : Option Side
  net_quantity : ℚ
  average_entry : ℚ
  total_fills : ℕ
  last_fill_time : Option ℤ
  realized_pnl : ℚ
  current_cycle_start : Option ℤ
  cycle_complete : Bool
deriving DecidableEq, Repr

/-- Sum of the contract amounts of a fill list. -/
def sumAmount (l : List Fill) : ℚ := (l.map Fill.amount).sum

/-- Sum of `amount * price` of a fill list (the `total_*_cost` accumulators). -/
def sumCost (l : List Fill) : ℚ := (l.map (fun f => f.amount * f.price)).sum

/-- The buy fills of a slice (the fills routed to the buy accumulators). -/
def buyFills (l : List Fill) : List Fill :=
  l.filter (fun f => f.side = OrderSide.buy)

/-- The sell fills of a slice. -/
def sellFills (l : List Fill) : List Fill :=
  l.filter (fun f => f.side = OrderSide.sell)

/-- `PositionTracker.analyze_position_state` on an already-fetched fill list:
cuts the current cycle slice, replays it into a net signed quantity and the
buy/sell accumulators and assembles the state dictionary.  The `if not fills`
early return of the source is the `isEmpty` branch. -/
def analyze_position_state (fills : List Fill) : PositionState :=
  if fills.isEmpty then
    { in_position := false
      flip_count := 0
      side := none
      net_quantity := 0
      average_entry := 0
      total_fills := 0
      last_fill_time := none
      realized_pnl := 0
      current_cycle_start := none
      cycle_complete := false }
  else
    let cycle_fills := get_current_cycle_fills fills
    let net_qty := cycle_fills.foldl (fun a f => a + signedQty f) 0
    let total_buy_cost := sumCost (buyFills cycle_fills)
    let total_buy_qty := sumAmount (buyFills cycle_fills)
    let total_sell_cost := sumCost (sellFills cycle_fills)
    let total_sell_qty := sumAmount (sellFills cycle_fills)
    let in_position : Bool := decide (eps < |net_qty|)
    let current_side : Option Side :=
      if in_position then some (if 0 < net_qty then .long else .short) else none
    let average_entry : ℚ :=
      if in_position then
        if current_side = some Side.long ∧ 0 < total_buy_qty then
          total_buy_cost / total_buy_qty
        else if current_side = some Side.short ∧ 0 < total_sell_qty then
          total_sell_cost / total_sell_qty
        else 0
      else 0
    { in_position := in_position
      flip_count := count_flips cycle_fills
      side := current_side
      net_quantity := |net_qty|
      average_entry := average_entry
      total_fills := cycle_fills.length
      last_fill_time := (cycle_fills.getLast?).map Fill.timestamp
      realized_pnl := calculate_realized_pnl cycle_fills
      current_cycle_start := (cycle_fills.head?).map Fill.timestamp
      cycle_complete := !in_position && decide (0 < cycle_fills.length) }

/-- Banker's rounding of a rational to the nearest integer, ties to even
(the semantics of Python's builtin `round`). -/
def roundHalfEven (x : ℚ) : ℤ :=
  let f := ⌊x⌋
  let r := x - f
  if r < 1 / 2 then f
  else if 1 / 2 < r then f + 1
  else if f % 2 = 0 then f else f + 1

/-- Python's `round(x, k)` on the idealized rational value. -/
def pyRound (k : ℕ) (x : ℚ) : ℚ :=
  (roundHalfEven (x * 10 ^ k) : ℚ) / 10 ^ k

/-- The configuration fields read by `TradeCalculator.__init__` out of
`config['strategy']` (plus the fee rate it resolves).
`range_pct_increase_per_flip` is referenced from `main.py` but never set in
`calc_engine.py`; it is the spec's `rangeGrowth`, defaulting to 1. -/
structure TradeCalculator where
  initial_entry_pct : ℚ
  multiplier : ℚ
  max_flips : ℕ
  range_pct : ℚ
  exit_use_trailing : Bool
  trailing_retracement_pct : ℚ
  fee_rate : ℚ
  range_pct_increase_per_flip : ℚ
deriving DecidableEq, Repr

/-- `TradeCalculator.calculate_next_position`: `0` once the flip count has
reached `max_flips`, otherwise the previous size times the martingale
multiplier, rounded to 3 decimals (`round(next_size, 3)`); the
`realized_loss` parameter and the estimated fee of the source are unused. -/
def calculate_next_position (c : TradeCalculator) (current_flip_count : ℕ)
    (previous_size : ℚ) : ℚ :=
  if c.max_flips ≤ current_flip_count then 0
  else pyRound 3 (previous_size * c.multiplier)

/-- `TradeCalculator.calculate_take_profit_price`: a literal rounded price in
static mode, `None` in trailing mode. -/
def calculate_take_profit_price (c : TradeCalculator) (entry_price : ℚ)
    (direction : Side) : Option ℚ :=
  if c.exit_use_trailing = false then
    some (pyRound 4 (match direction with
      | .long => entry_price * (1 + c.range_pct / 100)
      | .short => entry_price * (1 - c.range_pct / 100)))
  else none

/-- `TradeCalculator.check_trailing_exit`.  The returned reason string of the
source interpolates the drawdown percentage; it is modelled as that rational.
`peak = none` models Python `None`, and the source's truthiness test
`if peak_price` additionally rejects a peak of `0.0`. -/
def check_trailing_exit (c : TradeCalculator) (entry_price current_price : ℚ)
    (peak_price : Option ℚ) (direction : Side) : Bool × Option ℚ :=
  if c.exit_use_trailing = false then (false, none)
  else
    match direction with
    | .long =>
        let profit_pct := ((current_price - entry_price) / entry_price) * 100
        if profit_pct < c.range_pct then (false, none)
        else
          match peak_price with
          | some p =>
              if p ≠ 0 ∧ entry_price < p then
                let drawdown_pct := ((p - current_price) / p) * 100
                if c.trailing_retracement_pct ≤ drawdown_pct then
                  (true, some drawdown_pct)
                else (false, none)
              else (false, none)
          | none => (false, none)
    | .short =>
        let profit_pct := ((entry_price - current_price) / entry_price) * 100
        if profit_pct < c.range_pct then (false, none)
        else
          match peak_price with
          | some p =>
              if p ≠ 0 ∧ p < entry_price then
                let drawdown_pct := ((current_price - p) / p) * 100
                if c.trailing_retracement_pct ≤ drawdown_pct then
                  (true, some drawdown_pct)
                else (false, none)
              else (false, none)
          | none => (false, none)

/-- Modelled from the spec: `TradeCalculator.calculate_range` is called from
`main.py` (`get_dynamic_range_and_price`, `place_initial_entry`,
`handle_flip_cleanup`) but is not defined anywhere under `src/`.  Spec §4.1:
the base range is `base_range_pct * rangeGrowth^flipCount`, where
`rangeGrowth` (`range_pct_increase_per_flip`) defaults to 1. -/
def calculate_range (c : TradeCalculator) (flip_count : ℕ) : ℚ :=
  c.range_pct * c.range_pct_increase_per_flip ^ flip_count

/-- The ticker fields `TradingBot.get_dynamic_range_and_price` reads. -/
structure Ticker where
  last : ℚ
  ask : ℚ
  bid : ℚ
deriving DecidableEq, Repr

/-- `TradingBot.get_dynamic_range_and_price` (happy path): base range for the
flip count plus the live bid/ask spread percentage, paired with the last
price.  The spread term is `((ask - bid) / ask) * 100` when both sides of the
book are positive, `0` otherwise. -/
def get_dynamic_range_and_price (c : TradeCalculator) (flip_count : ℕ)
    (t : Ticker) : ℚ × ℚ :=
  let base_range := calculate_range c flip_count
  let spread_pct := if 0 < t.ask ∧ 0 < t.bid then ((t.ask - t.bid) / t.ask) * 100 else 0
  (t.last, base_range + spread_pct)

/-- Modelled from the spec: `AccountManager.check_sufficient_balance` is
called from `main.py` (`reconcile_orders`, `check_manual_flip_trigger`, the
monitors) but is not defined in `account_manager.py`.  Spec §6:
`checkSufficientBalance(amountUsd) → bool`, true when the available balance
covers the amount. -/
def check_sufficient_balance (available_balance amount_usd : ℚ) : Bool :=
  decide (amount_usd ≤ available_balance)

/-- The side opposite to a position side. -/
def opposite : Side → Side
  | .long => .short
  | .short => .long

/-- The take-profit price computed in `TradingBot.reconcile_orders` (step 4):
above entry for a long, below for a short. -/
def reconcile_tp_price (side : Side) (entry_price range_pct : ℚ) : ℚ :=
  match side with
  | .long => entry_price * (1 + range_pct / 100)
  | .short => entry_price * (1 - range_pct / 100)

/-- The flip trigger price computed in `TradingBot.reconcile_orders`
(step 4): below entry for a long, above for a short. -/
def reconcile_flip_trigger_price (side : Side) (entry_price range_pct : ℚ) : ℚ :=
  match side with
  | .long => entry_price * (1 - range_pct / 100)
  | .short => entry_price * (1 + range_pct / 100)

/-- A conditional order as submitted by `BybitClient.create_conditional_order`
from `reconcile_orders`: side, contract amount, trigger price, the position
leg it acts on, `Market`/`Limit`, and the `reduceOnly` flag. -/
structure ConditionalOrder where
  side : OrderSide
  amount : ℚ
  trigger_price : ℚ
  position_side : Side
  is_market : Bool
  reduce_only : Bool
deriving DecidableEq, Repr

/-- Steps 5 and 7 of `TradingBot.reconcile_orders`: compute the next flip
size from the current position notional, then place either a reduce-only
market stop-loss on the current leg (when the size is `0` or the balance
check fails) or an opposite-side conditional limit flip order, both at the
same flip trigger price. -/
def reconcile_flip_or_stop (c : TradeCalculator) (available_balance : ℚ)
    (side : Side) (contracts entry_price : ℚ) (flip_count : ℕ)
    (range_pct : ℚ) : ConditionalOrder :=
  let flip_trigger_price := reconcile_flip_trigger_price side entry_price range_pct
  let flip_side : OrderSide := match side with | .long => .sell | .short => .buy
  let flip_position_side := opposite side
  let position_size_usd := contracts * entry_price
  let next_flip_size_usd := calculate_next_position c flip_count position_size_usd
  let should_stop :=
    next_flip_size_usd = 0 ∨
      check_sufficient_balance available_balance next_flip_size_usd = false
  if should_stop then
    { side := flip_side
      amount := contracts
      trigger_price := flip_trigger_price
      position_side := side
      is_market := true
      reduce_only := true }
  else
    { side := flip_side
      amount := next_flip_size_usd / flip_trigger_price
      trigger_price := flip_trigger_price
      position_side := flip_position_side
      is_market := false
      reduce_only := false }

/-- The broker position fields the orchestrator and the boundary read. -/
structure BrokerPosition where
  side : Side
  contracts : ℚ
deriving DecidableEq, Repr

/-- `BybitClient.fetch_open_positions`: `none` models the `except` branch
(the underlying `fetch_positions` call raised), otherwise the positions with
non-zero `contracts` are kept. -/
def fetch_open_positions (raw : Option (List BrokerPosition)) :
    Option (List BrokerPosition) :=
  match raw with
  | none => none
  | some ps => some (ps.filter (fun p => p.contracts ≠ 0))

/-- What the scanning path of `TradingBot.start_cycle` (no active coin) does
with the positions fetch result. -/
inductive ScanDecision where
  | skipError
  | waitForClose
  | scanNewCoin
deriving DecidableEq, Repr

/-- The `all_positions` checks of `TradingBot.start_cycle`: a `None` fetch
result aborts the tick with a warning, a non-empty list waits for the
existing positions to close, and only an actual empty list falls through to
the scanner (`get_best_volatile_coin`). -/
def start_cycle_scan_decision (all_positions : Option (List BrokerPosition)) :
    ScanDecision :=
  match all_positions with
  | none => .skipError
  | some [] => .scanNewCoin
  | some (_ :: _) => .waitForClose

/-- One pass of the `while buy_queue and sell_queue` loop of
`_calculate_realized_pnl`, restricted to its queue updates: match
`min(buy_qty, sell_qty)` against both heads and drop each head whose
remaining quantity fell below `eps`. -/
def fifo_iterate (b s : List QEntry) : List QEntry × List QEntry :=
  match b, s with
  | (bq, bp, bf) :: bs, (sq, sp, sf) :: ss =>
      let m := min bq sq
      let b2 := if bq - m < eps then bs else (bq - m, bp, bf) :: bs
      let s2 := if sq - m < eps then ss else (sq - m, sp, sf) :: ss
      (b2, s2)
  | _, _ => (b, s)

/-- The sequence of position sides observed after each fill of a list when
replaying from the running quantity `r` (the spec's replay of the
current-cycle slice). -/
def sidesFrom (r : ℚ) : List Fill → List (Option Side)
  | [] => []
  | f :: rest => sideOf (r + signedQty f) :: sidesFrom (r + signedQty f) rest

/-- The clearly-directional observations of a replay, flats dropped. -/
def clearSides (xs : List (Option Side)) : List Side := xs.filterMap id

/-- Number of changes between consecutive elements of a side sequence. -/
def countChanges : List Side → ℕ
  | a :: b :: rest => (if a ≠ b then 1 else 0) + countChanges (b :: rest)
  | _ => 0

/-! Concrete instances used by the scenario theorems below. -/

def scenarioB_fills : List Fill :=
  [⟨.buy, 10, 100, 0, 1⟩, ⟨.sell, 25, 90, 0, 2⟩]

/-- A fill history whose current-cycle slice replays as long, flat, short:
the descent of the full-list running quantity into the dead zone happens
off a sub-tolerance position, so no cycle boundary cuts the flat. -/
def flatFlip_fills : List Fill :=
  [⟨.buy, 5, 1, 0, 1⟩, ⟨.sell, 50009/10000, 1, 0, 2⟩,
   ⟨.buy, 14/10000, 1, 0, 3⟩, ⟨.sell, 19/10000, 1, 0, 4⟩,
   ⟨.sell, 1/1000, 1, 0, 5⟩]

/-- A concrete strategy configuration: multiplier 2, max_flips 3, base
range 2 percent, flat range growth, trailing exit on. -/
def exampleCalc : TradeCalculator :=
  { initial_entry_pct := 1
    multiplier := 2
    max_flips := 3
    range_pct := 2
    exit_use_trailing := true
    trailing_retracement_pct := 1 / 2
    fee_rate := 6 / 10000
    range_pct_increase_per_flip := 1 }

/-- A concrete ticker realizing Scenario D: last 100 and a 0.05 percent
bid/ask spread. -/
def exampleTicker : Ticker := ⟨100, 2000, 1999⟩

/-! Helper lemmas. -/

lemma net_fold_eq : ∀ (l : List Fill) (c : ℚ),
    l.foldl (fun a f => a + signedQty f) c
      = c + (sumAmount (buyFills l) - sumAmount (sellFills l)) := by
  intro l
  induction l with
  | nil => intro c; simp [sumAmount, buyFills, sellFills]
  | cons f rest ih =>
      intro c
      rw [List.foldl_cons, ih]
      cases hf : f.side with
      | buy =>
          simp [signedQty, hf, buyFills, sellFills, sumAmount, List.filter_cons]
          ring
      | sell =>
          simp [signedQty, hf, buyFills, sellFills, sumAmount, List.filter_cons]
          ring

/-- C1 counterexample: on `[buy 10@100, sell 25@90]` the Reconstructor
reports `net_quantity = 25`, not `15`: the whole flip fill is attributed to
the new cycle, so the closed 10 contracts of the old long are not netted
out. -/
theorem scenarioB_net_quantity_not_fifteen :
    (analyze_position_state scenarioB_fills).net_quantity ≠ 15 := by
  norm_num [analyze_position_state, get_current_cycle_fills, cycle_boundaries,
    boundariesFrom, signedQty, eps, sumAmount, sumCost, buyFills, sellFills,
    count_flips, flipsAux, sideOf, scenarioB_fills, List.filter_cons, abs]

/-- C1 (amended): on `[buy 10@100, sell 25@90]` the new cycle starts at the
second fill (the flip fill itself), and the reported state is
`side = short`, `net_quantity = 25` (the full flip fill quantity, not the
broker-side net of 15) and `flip_count = 0`. -/
theorem scenarioB_new_cycle_state :
    get_current_cycle_fills scenarioB_fills = [⟨.sell, 25, 90, 0, 2⟩] ∧
    (analyze_position_state scenarioB_fills).side = some Side.short ∧
    (analyze_position_state scenarioB_fills).net_quantity = 25 ∧
    (analyze_position_state scenarioB_fills).flip_count = 0 := by
  norm_num [analyze_position_state, get_current_cycle_fills, cycle_boundaries,
    boundariesFrom, signedQty, eps, sumAmount, sumCost, buyFills, sellFills,
    count_flips, flipsAux, sideOf, scenarioB_fills, List.filter_cons, abs]

/-- C2 counterexample: for one buy (1 @ 100, fee 2) fully matched against
one sell (1 @ 110, fee 4), the code's pro-ration
`(buy_fee + sell_fee) * matched / (buy_qty + sell_qty)` charges only half of
each fee, so the result is `7`, not `qty*(sellPrice-buyPrice) - fees = 4`. -/
theorem realized_pnl_not_full_fees :
    calculate_realized_pnl
        [⟨.buy, 1, 100, 2, 1⟩, ⟨.sell, 1, 110, 4, 2⟩]
      ≠ 1 * (110 - 100) - (2 + 4) := by
  simp [calculate_realized_pnl, buyQueue, sellQueue, List.filter_cons,
    fifoMatch, eps]
  norm_num

/-- C2 (amended): for a slice of exactly one buy and one sell of the same
positive quantity `q`, the FIFO realized P&L is
`q*(sellPrice - buyPrice)` minus HALF of the sum of the two fees (the
denominator `buy_qty + sell_qty` of the pro-ration is `2q` while the
matched quantity is `q`). -/
theorem realized_pnl_matched_pair (q bp sp bf sf : ℚ) (t1 t2 : ℤ)
    (hq : 0 < q) :
    calculate_realized_pnl
        [⟨.buy, q, bp, bf, t1⟩, ⟨.sell, q, sp, sf, t2⟩]
      = q * (sp - bp) - (bf + sf) / 2 := by
  have hq0 : q ≠ 0 := ne_of_gt hq
  simp [calculate_realized_pnl, buyQueue, sellQueue, List.filter_cons,
    fifoMatch, eps]
  field_simp
  ring

/-- C2 witness: the amended statement applied at
`q = 1, bp = 100, sp = 110, bf = 2, sf = 4`. -/
theorem realized_pnl_matched_pair_witness :
    (0 : ℚ) < 1 ∧
    calculate_realized_pnl
        [⟨.buy, 1, 100, 2, 1⟩, ⟨.sell, 1, 110, 4, 2⟩]
      = 1 * (110 - 100) - (2 + 4) / 2 :=
  ⟨by norm_num, realized_pnl_matched_pair 1 100 110 2 4 1 2 (by norm_num)⟩

/-- C6: for every fill list, the derived state has `in_position` true
exactly when `net_quantity` exceeds the tolerance `eps = 0.001`, `side`
is `none` exactly when not in position, and `net_quantity` is the absolute
value of total buys minus total sells over the current-cycle slice (hence
nonnegative). -/
theorem position_state_invariants (fills : List Fill) :
    ((analyze_position_state fills).in_position = true ↔
      eps < (analyze_position_state fills).net_quantity) ∧
    ((analyze_position_state fills).side = none ↔
      (analyze_position_state fills).in_position = false) ∧
    0 ≤ (analyze_position_state fills).net_quantity ∧
    (analyze_position_state fills).net_quantity =
      |sumAmount (buyFills (get_current_cycle_fills fills)) -
        sumAmount (sellFills (get_current_cycle_fills fills))| := by
  by_cases h : fills.isEmpty = true
  · have hnil : fills = [] := by simpa [List.isEmpty_iff] using h
    subst hnil
    norm_num [analyze_position_state, get_current_cycle_fills, cycle_boundaries,
      boundariesFrom, sumAmount, buyFills, sellFills, eps]
  · have hnet := net_fold_eq (get_current_cycle_fills fills) 0
    simp only [analyze_position_state, h, Bool.false_eq_true, if_false]
    refine ⟨by simp, ?_, abs_nonneg _, by rw [hnet, zero_add]⟩
    by_cases hp : eps < |(get_current_cycle_fills fills).foldl
        (fun a f => a + signedQty f) 0|
    · simp [hp]
    · simp [hp]

/-- C10: one pass of the FIFO matching loop always strictly shrinks the
total queue length (matching `min(buy_qty, sell_qty)` drives at least one
head's remainder below `eps`, so at least one head is popped), and the
realized-P&L recursion unfolds along exactly that pass - hence the loop
terminates on every pair of non-empty queues. -/
theorem fifo_loop_shrinks (bq bp bf sq sp sf : ℚ) (bs ss : List QEntry)
    (hb : 0 < bq) (hs : 0 < sq) :
    ((fifo_iterate ((bq, bp, bf) :: bs) ((sq, sp, sf) :: ss)).1.length
        + (fifo_iterate ((bq, bp, bf) :: bs) ((sq, sp, sf) :: ss)).2.length
      < ((bq, bp, bf) :: bs).length + ((sq, sp, sf) :: ss).length) ∧
    fifoMatch ((bq, bp, bf) :: bs) ((sq, sp, sf) :: ss)
      = (min bq sq * (sp - bp) - (bf + sf) * min bq sq / (bq + sq))
        + fifoMatch (fifo_iterate ((bq, bp, bf) :: bs) ((sq, sp, sf) :: ss)).1
            (fifo_iterate ((bq, bp, bf) :: bs) ((sq, sp, sf) :: ss)).2 := by
  have heps : (0 : ℚ) < eps := by norm_num [eps]
  rcases min_cases bq sq with ⟨hm, hle⟩ | ⟨hm, hlt⟩
  · by_cases hss : sq - bq < eps
    · constructor
      · simp only [fifo_iterate, hm, sub_self, if_pos heps, if_pos hss,
          List.length_cons]
        omega
      · simp only [fifoMatch, fifo_iterate, hm, sub_self, if_pos heps,
          if_pos hss]
    · constructor
      · simp only [fifo_iterate, hm, sub_self, if_pos heps, if_neg hss,
          List.length_cons]
        omega
      · simp only [fifoMatch, fifo_iterate, hm, sub_self, if_pos heps,
          if_neg hss]
  · have hsz : sq - sq < eps := by simpa using heps
    by_cases hbs : bq - sq < eps
    · constructor
      · simp only [fifo_iterate, hm, sub_self, if_pos heps, if_pos hbs,
          List.length_cons]
        omega
      · simp only [fifoMatch, fifo_iterate, hm, sub_self, if_pos heps,
          if_pos hbs, if_pos hsz]
    · constructor
      · simp only [fifo_iterate, hm, sub_self, if_pos heps, if_neg hbs,
          List.length_cons]
        omega
      · simp only [fifoMatch, fifo_iterate, hm, sub_self, if_pos heps,
          if_neg hbs, if_pos hsz]

/-- C10 witness: the shrink statement applied to the singleton queues
`[(1, 100, 0)]` and `[(2, 110, 0)]`. -/
theorem fifo_loop_shrinks_witness :
    (0 : ℚ) < 1 ∧ (0 : ℚ) < 2 ∧
    ((fifo_iterate [((1 : ℚ), (100 : ℚ), (0 : ℚ))] [((2 : ℚ), (110 : ℚ), (0 : ℚ))]).1.length
        + (fifo_iterate [((1 : ℚ), (100 : ℚ), (0 : ℚ))] [((2 : ℚ), (110 : ℚ), (0 : ℚ))]).2.length
      < [((1 : ℚ), (100 : ℚ), (0 : ℚ))].length + [((2 : ℚ), (110 : ℚ), (0 : ℚ))].length) :=
  ⟨by norm_num, by norm_num,
    (fifo_loop_shrinks 1 100 0 2 110 0 [] [] (by norm_num) (by norm_num)).1⟩

lemma sidesFrom_length : ∀ (l : List Fill) (r : ℚ),
    (sidesFrom r l).length = l.length := by
  intro l
  induction l with
  | nil => intro r; simp [sidesFrom]
  | cons f rest ih => intro r; simp [sidesFrom, ih]

lemma countChanges_short (xs : List Side) (h : xs.length ≤ 1) :
    countChanges xs = 0 := by
  cases xs with
  | nil => rfl
  | cons a t =>
      cases t with
      | nil => rfl
      | cons b u => simp only [List.length_cons] at h; omega

lemma flipsAux_eq_countChanges : ∀ (l : List Fill) (r : ℚ),
    (flipsAux r none l = countChanges (clearSides (sidesFrom r l))) ∧
    (∀ p : Side, flipsAux r (some p) l
        = countChanges (p :: clearSides (sidesFrom r l))) := by
  intro l
  induction l with
  | nil =>
      intro r
      exact ⟨by simp [flipsAux, sidesFrom, clearSides, countChanges],
        fun p => by simp [flipsAux, sidesFrom, clearSides, countChanges]⟩
  | cons f rest ih =>
      intro r
      rcases hc : sideOf (r + signedQty f) with _ | c
      · constructor
        · simp only [flipsAux, sidesFrom, hc, clearSides, List.filterMap_cons,
            id_eq]
          simpa [clearSides] using (ih (r + signedQty f)).1
        · intro p
          simp only [flipsAux, sidesFrom, hc, clearSides, List.filterMap_cons,
            id_eq]
          simpa [clearSides] using (ih (r + signedQty f)).2 p
      · constructor
        · simp only [flipsAux, sidesFrom, hc, clearSides, List.filterMap_cons,
            id_eq]
          simpa [clearSides] using (ih (r + signedQty f)).2 c
        · intro p
          simp only [flipsAux, sidesFrom, hc, clearSides, List.filterMap_cons,
            id_eq]
          rw [show flipsAux (r + signedQty f) (some c) rest
              = countChanges (c :: clearSides (sidesFrom (r + signedQty f) rest))
            from (ih (r + signedQty f)).2 c]
          simp [countChanges, clearSides]

lemma count_flips_eq_countChanges (l : List Fill) :
    count_flips l = countChanges (clearSides (sidesFrom 0 l)) := by
  unfold count_flips
  by_cases h : l.length < 2
  · rw [if_pos h]
    refine (countChanges_short _ ?_).symm
    calc (clearSides (sidesFrom 0 l)).length
        ≤ (sidesFrom 0 l).length := List.length_filterMap_le id _
      _ = l.length := sidesFrom_length l 0
      _ ≤ 1 := by omega
  · rw [if_neg h]
    exact (flipsAux_eq_countChanges l 0).1

/-- C7 (amended): for every fill list, `flip_count` equals the number of
changes between consecutive clearly-directional sides (`|running| > eps`)
of the replay of the current-cycle slice.  In particular a transition whose
intermediate flat fills survive inside the slice DOES increment the counter:
the last clear side is remembered across flats. -/
theorem flip_count_counts_clear_side_changes (fills : List Fill) :
    (analyze_position_state fills).flip_count
      = countChanges (clearSides (sidesFrom 0 (get_current_cycle_fills fills))) := by
  by_cases h : fills.isEmpty = true
  · have hnil : fills = [] := by simpa [List.isEmpty_iff] using h
    subst hnil
    simp [analyze_position_state, get_current_cycle_fills, cycle_boundaries,
      boundariesFrom, sidesFrom, clearSides, countChanges]
  · simp only [analyze_position_state, h, Bool.false_eq_true, if_false]
    exact count_flips_eq_countChanges _

/-- C7 counterexample: on `flatFlip_fills` the current-cycle slice replays
through sides long, flat, short - the running quantity returns to within
`eps` of zero before the side changes - and yet `flip_count = 1`: the
transition through flat increments the counter. -/
theorem flat_transition_counts_as_flip :
    sidesFrom 0 (get_current_cycle_fills flatFlip_fills)
        = [some Side.long, none, some Side.short] ∧
    (analyze_position_state flatFlip_fills).flip_count = 1 := by
  norm_num [analyze_position_state, get_current_cycle_fills, cycle_boundaries,
    boundariesFrom, signedQty, eps, count_flips, flipsAux, sideOf, sidesFrom,
    flatFlip_fills, abs]
  decide

/-- C3 counterexample: with multiplier 2, at flip count `0 < max_flips` and
previous size `0.0001`, `calculate_next_position` returns
`round(0.0002, 3) = 0`, not `previousSize * multiplier = 0.0002`. -/
theorem next_position_rounds_small_sizes_to_zero :
    (0 : ℕ) < exampleCalc.max_flips ∧
    calculate_next_position exampleCalc 0 (1 / 10000)
      ≠ (1 / 10000) * exampleCalc.multiplier := by
  constructor
  · norm_num [exampleCalc]
  · norm_num [calculate_next_position, exampleCalc, pyRound, roundHalfEven]

/-- C3 (amended): `calculate_next_position` returns the previous size times
the multiplier rounded to 3 decimals while `flipCount < max_flips` and
exactly 0 once `flipCount ≥ max_flips`; below `max_flips` it does not depend
on the flip count (hence is monotonically non-decreasing in it), and with
initial size 100, multiplier 2, max_flips 3 the sizes are 100, 200, 400,
800 with the fifth request returning 0. -/
theorem calculate_next_position_progression (c : TradeCalculator) (f g : ℕ)
    (prev : ℚ) :
    (c.max_flips ≤ f → calculate_next_position c f prev = 0) ∧
    (f < c.max_flips →
      calculate_next_position c f prev = pyRound 3 (prev * c.multiplier)) ∧
    (f ≤ g → g < c.max_flips →
      calculate_next_position c f prev ≤ calculate_next_position c g prev) ∧
    (calculate_next_position exampleCalc 0 100 = 200 ∧
     calculate_next_position exampleCalc 1 200 = 400 ∧
     calculate_next_position exampleCalc 2 400 = 800 ∧
     calculate_next_position exampleCalc 3 800 = 0) := by
  refine ⟨?_, ?_, ?_, ?_, ?_, ?_, ?_⟩
  · intro h; simp [calculate_next_position, h]
  · intro h
    unfold calculate_next_position
    rw [if_neg (by omega)]
  · intro hfg hg
    unfold calculate_next_position
    rw [if_neg (by omega), if_neg (by omega)]
  · norm_num [calculate_next_position, exampleCalc, pyRound, roundHalfEven]
  · norm_num [calculate_next_position, exampleCalc, pyRound, roundHalfEven]
  · norm_num [calculate_next_position, exampleCalc, pyRound, roundHalfEven]
  · norm_num [calculate_next_position, exampleCalc]

/-- C3 witness: the amended statement applied at flip count 3 and previous
size 800 under the example configuration. -/
theorem calculate_next_position_progression_witness :
    exampleCalc.max_flips ≤ 3 ∧ calculate_next_position exampleCalc 3 800 = 0 :=
  ⟨by norm_num [exampleCalc],
    (calculate_next_position_progression exampleCalc 3 3 800).1
      (by norm_num [exampleCalc])⟩

/-- C5: the dynamic range is
`base_range_pct * rangeGrowth^flipCount + liveSpreadPct` (with the growth
factor 1 it is base plus spread), and in Scenario D - base 2 percent,
spread 0.05 percent - the range is 2.05 percent with long TP and flip
trigger prices 102.05 and 97.95 from entry 100. -/
theorem dynamic_range_formula (c : TradeCalculator) (fc : ℕ) (t : Ticker)
    (ha : 0 < t.ask) (hb : 0 < t.bid) :
    ((get_dynamic_range_and_price c fc t).2
        = c.range_pct * c.range_pct_increase_per_flip ^ fc
          + ((t.ask - t.bid) / t.ask) * 100) ∧
    (c.range_pct_increase_per_flip = 1 →
      (get_dynamic_range_and_price c fc t).2
        = c.range_pct + ((t.ask - t.bid) / t.ask) * 100) ∧
    ((get_dynamic_range_and_price exampleCalc 0 exampleTicker).2 = 2.05 ∧
     reconcile_tp_price Side.long 100 2.05 = 102.05 ∧
     reconcile_flip_trigger_price Side.long 100 2.05 = 97.95) := by
  refine ⟨?_, ?_, ?_, ?_, ?_⟩
  · simp [get_dynamic_range_and_price, calculate_range, ha, hb]
  · intro h1
    simp [get_dynamic_range_and_price, calculate_range, ha, hb, h1]
  · norm_num [get_dynamic_range_and_price, calculate_range, exampleCalc,
      exampleTicker]
  · norm_num [reconcile_tp_price]
  · norm_num [reconcile_flip_trigger_price]

/-- C5 witness: the formula applied to the Scenario D ticker. -/
theorem dynamic_range_formula_witness :
    (0 : ℚ) < exampleTicker.ask ∧ (0 : ℚ) < exampleTicker.bid ∧
    (get_dynamic_range_and_price exampleCalc 0 exampleTicker).2 = 2.05 :=
  ⟨by norm_num [exampleTicker], by norm_num [exampleTicker],
    (dynamic_range_formula exampleCalc 0 exampleTicker
      (by norm_num [exampleTicker]) (by norm_num [exampleTicker])).2.2.1⟩

lemma roundHalfEven_nonneg (x : ℚ) (hx : 0 ≤ x) : 0 ≤ roundHalfEven x := by
  have h0 : (0 : ℤ) ≤ ⌊x⌋ := Int.le_floor.mpr (by exact_mod_cast hx)
  simp only [roundHalfEven]
  split
  · exact h0
  split
  · omega
  split
  · exact h0
  · omega

lemma pyRound_nonneg (k : ℕ) (x : ℚ) (hx : 0 ≤ x) : 0 ≤ pyRound k x := by
  unfold pyRound
  apply div_nonneg
  · exact_mod_cast roundHalfEven_nonneg _ (mul_nonneg hx (by positivity))
  · positivity

lemma calculate_next_position_nonneg (c : TradeCalculator) (fc : ℕ)
    (prev : ℚ) (hp : 0 ≤ prev) (hm : 0 ≤ c.multiplier) :
    0 ≤ calculate_next_position c fc prev := by
  unfold calculate_next_position
  split
  · exact le_refl 0
  · exact pyRound_nonneg _ _ (mul_nonneg hp hm)

/-- C4: when reconciling orders for an open position, an opposite-side
non-reduce-only flip order is placed exactly when the next flip size is
positive AND the account boundary's balance check passes; otherwise - in
particular on insufficient balance - a reduce-only market stop-loss on the
current leg is placed, at the same flip trigger price. -/
theorem reconcile_stop_vs_flip (c : TradeCalculator) (bal : ℚ) (side : Side)
    (contracts entry_price : ℚ) (fc : ℕ) (range_pct : ℚ)
    (hc : 0 ≤ contracts) (he : 0 ≤ entry_price) (hm : 0 ≤ c.multiplier) :
    ((reconcile_flip_or_stop c bal side contracts entry_price fc
        range_pct).reduce_only = false
      ↔ (0 < calculate_next_position c fc (contracts * entry_price) ∧
          check_sufficient_balance bal
            (calculate_next_position c fc (contracts * entry_price)) = true)) ∧
    ((reconcile_flip_or_stop c bal side contracts entry_price fc
        range_pct).reduce_only = false →
      (reconcile_flip_or_stop c bal side contracts entry_price fc
          range_pct).position_side = opposite side ∧
      (reconcile_flip_or_stop c bal side contracts entry_price fc
          range_pct).trigger_price
        = reconcile_flip_trigger_price side entry_price range_pct) ∧
    ((reconcile_flip_or_stop c bal side contracts entry_price fc
        range_pct).reduce_only = true →
      reconcile_flip_or_stop c bal side contracts entry_price fc range_pct
        = { side := match side with | .long => .sell | .short => .buy
            amount := contracts
            trigger_price := reconcile_flip_trigger_price side entry_price range_pct
            position_side := side
            is_market := true
            reduce_only := true }) := by
  have h0 : 0 ≤ calculate_next_position c fc (contracts * entry_price) :=
    calculate_next_position_nonneg c fc _ (mul_nonneg hc he) hm
  by_cases hstop : calculate_next_position c fc (contracts * entry_price) = 0 ∨
      check_sufficient_balance bal
        (calculate_next_position c fc (contracts * entry_price)) = false
  · simp only [reconcile_flip_or_stop, if_pos hstop]
    refine ⟨?_, ?_, ?_⟩
    · simp only [Bool.true_eq_false, false_iff]
      rintro ⟨h1, h2⟩
      rcases hstop with h | h
      · exact absurd h (ne_of_gt h1)
      · rw [h2] at h; exact Bool.true_eq_false ▸ h.symm ▸ (by simp at h)
    · intro h; simp at h
    · intro _; trivial
  · simp only [reconcile_flip_or_stop, if_neg hstop]
    push_neg at hstop
    obtain ⟨h1, h2⟩ := hstop
    refine ⟨?_, ?_, ?_⟩
    · simp only [true_iff]
      exact ⟨lt_of_le_of_ne h0 (Ne.symm h1), by
        cases hcb : check_sufficient_balance bal
            (calculate_next_position c fc (contracts * entry_price)) with
        | false => exact absurd hcb h2
        | true => rfl⟩
    · intro _; exact ⟨trivial, trivial⟩
    · intro h; simp at h

/-- C4 witness: at flip count 3 = max_flips the computed size is 0, the
balance check is moot, and the placed order is the reduce-only stop-loss. -/
theorem reconcile_stop_vs_flip_witness :
    (0 : ℚ) ≤ 1 ∧
    ((reconcile_flip_or_stop exampleCalc 1000 Side.long 1 100 3
        2).reduce_only = false
      ↔ (0 < calculate_next_position exampleCalc 3 (1 * 100) ∧
          check_sufficient_balance 1000
            (calculate_next_position exampleCalc 3 (1 * 100)) = true)) :=
  ⟨by norm_num,
    (reconcile_stop_vs_flip exampleCalc 1000 Side.long 1 100 3 2
      (by norm_num) (by norm_num) (by norm_num [exampleCalc])).1⟩

/-- C8: the positions fetch returns `none` exactly when the underlying
exchange call failed (a successful call always yields a list, possibly
empty), and the scanning path of `start_cycle` proceeds to look for a new
coin exactly when the fetch produced an actual empty list - a `none`
result never starts a new cycle. -/
theorem fetch_error_never_starts_cycle (raw : Option (List BrokerPosition)) :
    (fetch_open_positions raw = none ↔ raw = none) ∧
    (start_cycle_scan_decision (fetch_open_positions raw)
        = ScanDecision.scanNewCoin
      ↔ fetch_open_positions raw = some []) ∧
    start_cycle_scan_decision none ≠ ScanDecision.scanNewCoin := by
  refine ⟨?_, ?_, by simp [start_cycle_scan_decision]⟩
  · cases raw <;> simp [fetch_open_positions]
  · cases raw with
    | none => simp [fetch_open_positions, start_cycle_scan_decision]
    | some ps =>
        simp only [fetch_open_positions]
        cases ps.filter (fun p => decide (p.contracts ≠ 0)) with
        | nil => simp [start_cycle_scan_decision]
        | cons a l => simp [start_cycle_scan_decision]

/-- C9: in trailing mode there is no fixed take-profit price, the trailing
check below the activation profit always returns `(false, none)`, and once
a genuine peak is supplied (beyond the current price in the profitable
direction) the exit fires exactly when the profit reached `range_pct` and
the pullback from the peak reached `trailing_retracement_pct`. -/
theorem trailing_exit_spec (c : TradeCalculator) (entry current p : ℚ)
    (ht : c.exit_use_trailing = true) (he : 0 < entry)
    (hr : 0 < c.range_pct) :
    (∀ d : Side, calculate_take_profit_price c entry d = none) ∧
    (current ≤ p →
      ((check_trailing_exit c entry current (some p) Side.long).1 = true ↔
        (c.range_pct ≤ ((current - entry) / entry) * 100 ∧
         c.trailing_retracement_pct ≤ ((p - current) / p) * 100))) ∧
    (0 < p → p ≤ current →
      ((check_trailing_exit c entry current (some p) Side.short).1 = true ↔
        (c.range_pct ≤ ((entry - current) / entry) * 100 ∧
         c.trailing_retracement_pct ≤ ((current - p) / p) * 100))) ∧
    (((current - entry) / entry) * 100 < c.range_pct →
      check_trailing_exit c entry current (some p) Side.long
        = (false, none)) ∧
    (((entry - current) / entry) * 100 < c.range_pct →
      check_trailing_exit c entry current (some p) Side.short
        = (false, none)) := by
  refine ⟨?_, ?_, ?_, ?_, ?_⟩
  · intro d; simp [calculate_take_profit_price, ht]
  · intro hpk
    simp only [check_trailing_exit, ht, Bool.true_eq_false, if_false]
    by_cases hp : ((current - entry) / entry) * 100 < c.range_pct
    · rw [if_pos hp]
      constructor
      · intro hfalse; simp at hfalse
      · rintro ⟨h1, _⟩; linarith
    · have hge : c.range_pct ≤ ((current - entry) / entry) * 100 :=
        not_lt.mp hp
      have hprofit : 0 < ((current - entry) / entry) * 100 :=
        lt_of_lt_of_le hr hge
      have hdiv : 0 < (current - entry) / entry := by linarith
      have hce : entry < current := by
        rcases div_pos_iff.mp hdiv with ⟨h1, _⟩ | ⟨_, h2⟩
        · linarith
        · linarith
      have hpe : entry < p := lt_of_lt_of_le hce hpk
      have hp0 : p ≠ 0 := ne_of_gt (lt_trans he hpe)
      rw [if_neg hp, if_pos ⟨hp0, hpe⟩]
      by_cases hdd : c.trailing_retracement_pct ≤ ((p - current) / p) * 100
      · rw [if_pos hdd]
        simp [hge, hdd]
      · rw [if_neg hdd]
        constructor
        · intro hfalse; simp at hfalse
        · rintro ⟨_, h2⟩; exact absurd h2 hdd
  · intro hppos hpk
    simp only [check_trailing_exit, ht, Bool.true_eq_false, if_false]
    by_cases hp : ((entry - current) / entry) * 100 < c.range_pct
    · rw [if_pos hp]
      constructor
      · intro hfalse; simp at hfalse
      · rintro ⟨h1, _⟩; linarith
    · have hge : c.range_pct ≤ ((entry - current) / entry) * 100 :=
        not_lt.mp hp
      have hprofit : 0 < ((entry - current) / entry) * 100 :=
        lt_of_lt_of_le hr hge
      have hdiv : 0 < (entry - current) / entry := by linarith
      have hce : current < entry := by
        rcases div_pos_iff.mp hdiv with ⟨h1, _⟩ | ⟨_, h2⟩
        · linarith
        · linarith
      have hpe : p < entry := lt_of_le_of_lt hpk hce
      have hp0 : p ≠ 0 := ne_of_gt hppos
      rw [if_neg hp, if_pos ⟨hp0, hpe⟩]
      by_cases hdd : c.trailing_retracement_pct ≤ ((current - p) / p) * 100
      · rw [if_pos hdd]
        simp [hge, hdd]
      · rw [if_neg hdd]
        constructor
        · intro hfalse; simp at hfalse
        · rintro ⟨_, h2⟩; exact absurd h2 hdd
  · intro hp
    simp only [check_trailing_exit, ht, Bool.true_eq_false, if_false]
    rw [if_pos hp]
  · intro hp
    simp only [check_trailing_exit, ht, Bool.true_eq_false, if_false]
    rw [if_pos hp]

/-- C9 witness: under the example (trailing) configuration with entry 100,
the take-profit routine reports no fixed TP for a long. -/
theorem trailing_exit_spec_witness :
    exampleCalc.exit_use_trailing = true ∧ (0 : ℚ) < 100 ∧
    (0 : ℚ) < exampleCalc.range_pct ∧
    calculate_take_profit_price exampleCalc 100 Side.long = none :=
  ⟨rfl, by norm_num, by norm_num [exampleCalc],
    (trailing_exit_spec exampleCalc 100 103 104 rfl (by norm_num)
      (by norm_num [exampleCalc])).1 Side.long⟩

end SAR
